import Mathlib

/-!
Verification of the state store of `TrainingMonitor`
(src/training_monitor.py).

A shallow embedding of the mutable `training_data` Python dict together
with the producer operations `update_training_status`, `add_log`,
`start_training_session` and `finish_training_session`.

Modelling decisions:

- A Python dict is an insertion-ordered association list
  `List (String × PyVal)`.  Assignment updates the first binding of the
  key in place, or appends a fresh binding at the end — CPython
  insertion-order semantics (`dSet`).  Membership is `dHas`, subscript
  read is `dGet`.
- Python values are the dynamic type `PyVal` (strings, ints, floats
  modelled as rationals — no float arithmetic ever happens in this
  code, values are only stored and moved — lists and dicts).
- Operations that can raise a Python exception (AttributeError,
  KeyError, IndexError, ZeroDivisionError) return `Option`, with `none`
  standing for the raised exception.
- The timestamps produced by the datetime and time calls are explicit
  parameters threaded into each call; within one method body the
  successive now-calls are represented by the same parameter (no claim
  depends on the sub-call drift).
- The socketio broadcasts are side effects outside the state store and
  are not part of the state model.
-/

inductive PyVal : Type where
  | str : String → PyVal
  | int : Int → PyVal
  | float : Rat → PyVal
  | list : List PyVal → PyVal
  | dict : List (String × PyVal) → PyVal
deriving Repr

abbrev PyDict := List (String × PyVal)

/-- Subscript read: the value of the first binding of `k`, if any. -/
def dGet (d : PyDict) (k : String) : Option PyVal :=
  match d with
  | [] => Option.none
  | (k', v) :: rest => if k' = k then some v else dGet rest k

/-- Python membership test `k in d` on dict keys. -/
def dHas (d : PyDict) (k : String) : Bool :=
  (dGet d k).isSome

/-- Subscript assignment: update the first binding of `k` in place,
else append a fresh binding at the end (CPython insertion-order
semantics). -/
def dSet (d : PyDict) (k : String) (v : PyVal) : PyDict :=
  match d with
  | [] => [(k, v)]
  | (k', v') :: rest => if k' = k then (k, v) :: rest else (k', v') :: dSet rest k v

/-- The dict `self.training_data` as initialized in
`TrainingMonitor.__init__` (src/training_monitor.py lines 25-44). -/
def initTrainingData : PyDict :=
  [("status", PyVal.str "idle"),
   ("current_epoch", PyVal.int 0),
   ("total_epochs", PyVal.int 0),
   ("current_step", PyVal.int 0),
   ("total_steps", PyVal.int 0),
   ("loss", PyVal.float 0),
   ("learning_rate", PyVal.float 0),
   ("elapsed_time", PyVal.int 0),
   ("estimated_remaining", PyVal.int 0),
   ("model_name", PyVal.str ""),
   ("dataset_size", PyVal.int 0),
   ("batch_size", PyVal.int 0),
   ("logs", PyVal.list []),
   ("metrics_history",
     PyVal.dict [("loss", PyVal.list []),
                 ("learning_rate", PyVal.list []),
                 ("timestamps", PyVal.list [])])]

/-- The keyword loop of `update_training_status` (lines 81-83): for
each keyword argument in order, assign it when its name is an existing
dict key, else skip it.  `kwargs` is the ordered keyword list. -/
def applyKwargs (d : PyDict) (kwargs : PyDict) : PyDict :=
  kwargs.foldl (fun d kv => if dHas d kv.1 then dSet d kv.1 kv.2 else d) d

/-- Append `v` to the list stored under `series` inside the
`metrics_history` sub-dict.  Fails (`none`) when `metrics_history` is
not a dict, the series is missing, or the series is not a list. -/
def mhAppend (d : PyDict) (series : String) (v : PyVal) : Option PyDict :=
  match dGet d "metrics_history" with
  | some (PyVal.dict mh) =>
    match dGet mh series with
    | some (PyVal.list l) =>
        some (dSet d "metrics_history" (PyVal.dict (dSet mh series (PyVal.list (l ++ [v])))))
    | _ => Option.none
  | _ => Option.none

/-- The pop of the oldest element of a `metrics_history` series.
Fails when the series is missing, not a list, or empty. -/
def mhPopFront (d : PyDict) (series : String) : Option PyDict :=
  match dGet d "metrics_history" with
  | some (PyVal.dict mh) =>
    match dGet mh series with
    | some (PyVal.list (_ :: rest)) =>
        some (dSet d "metrics_history" (PyVal.dict (dSet mh series (PyVal.list rest))))
    | _ => Option.none
  | _ => Option.none

/-- Lines 88-96: the loss-history branch of `update_training_status`.
Only taken when the keyword list carries a `loss` binding; appends the
supplied loss and a timestamp, then pops the oldest loss and timestamp
when the loss series exceeds 100 points. -/
def lossBranch (d : PyDict) (kwargs : PyDict) (now : String) : Option PyDict :=
  match dGet kwargs "loss" with
  | Option.none => some d
  | some lv => do
    let d ← mhAppend d "loss" lv
    let d ← mhAppend d "timestamps" (PyVal.str now)
    match dGet d "metrics_history" with
    | some (PyVal.dict mh) =>
      match dGet mh "loss" with
      | some (PyVal.list l) =>
        if l.length > 100 then do
          let d ← mhPopFront d "loss"
          mhPopFront d "timestamps"
        else some d
      | _ => Option.none
    | _ => Option.none

/-- Lines 98-99: the learning-rate branch.  Appends the supplied value
to the `learning_rate` series; the code applies no length cap here. -/
def lrBranch (d : PyDict) (kwargs : PyDict) : Option PyDict :=
  match dGet kwargs "learning_rate" with
  | Option.none => some d
  | some v => mhAppend d "learning_rate" v

/-- Method `update_training_status` (lines 76-102), acting on the
`training_data` dict `d` at time `now`. -/
def update_training_status (d : PyDict) (status : String) (kwargs : PyDict)
    (now : String) : Option PyDict := do
  let d := dSet d "status" (PyVal.str status)
  let d := applyKwargs d kwargs
  let d := dSet d "last_update" (PyVal.str now)
  let d ← lossBranch d kwargs now
  lrBranch d kwargs

/-- The log entry dict built at lines 106-110. -/
def logEntry (now level message : String) : PyVal :=
  PyVal.dict [("timestamp", PyVal.str now), ("level", PyVal.str level),
              ("message", PyVal.str message)]

/-- The bounded-buffer step shared by the log buffer and the loss
history: after an append, when the length exceeds 100 the oldest
element is popped (lines 94-96 and 114-116). -/
def cap100 (l : List PyVal) : List PyVal :=
  if l.length > 100 then l.drop 1 else l

/-- Method `add_log` (lines 104-118): append the entry to the list
under `logs`, then pop the oldest entry when the buffer exceeds 100. -/
def add_log (d : PyDict) (message : String) (level : String) (now : String) :
    Option PyDict :=
  match dGet d "logs" with
  | some (PyVal.list l) =>
      some (dSet d "logs" (PyVal.list (cap100 (l ++ [logEntry now level message]))))
  | _ => Option.none

/-- The fresh `metrics_history` dict written by
`start_training_session`. -/
def emptyMetricsHistory : PyVal :=
  PyVal.dict [("loss", PyVal.list []), ("learning_rate", PyVal.list []),
              ("timestamps", PyVal.list [])]

/-- Method `start_training_session` (lines 120-141): a `dict.update`
with the fresh session fields (Python floor division raises on a zero
divisor, hence the guard), followed by two `add_log` calls.
`startTime` models the wall-clock start stamp; `t1, t2` the two log
timestamps. -/
def start_training_session (d : PyDict) (model_name : String)
    (total_epochs dataset_size batch_size : Int) (startTime : Rat)
    (t1 t2 : String) : Option PyDict :=
  if batch_size = 0 then Option.none else do
  let d := dSet d "status" (PyVal.str "starting")
  let d := dSet d "model_name" (PyVal.str model_name)
  let d := dSet d "total_epochs" (PyVal.int total_epochs)
  let d := dSet d "dataset_size" (PyVal.int dataset_size)
  let d := dSet d "batch_size" (PyVal.int batch_size)
  let d := dSet d "current_epoch" (PyVal.int 0)
  let d := dSet d "current_step" (PyVal.int 0)
  let d := dSet d "total_steps" (PyVal.int (Int.fdiv dataset_size batch_size * total_epochs))
  let d := dSet d "start_time" (PyVal.float startTime)
  let d := dSet d "logs" (PyVal.list [])
  let d := dSet d "metrics_history" emptyMetricsHistory
  let d ← add_log d ("Starting training session for " ++ model_name) "info" t1
  add_log d ("Total epochs: " ++ toString total_epochs ++ ", Dataset size: "
      ++ toString dataset_size ++ ", Batch size: " ++ toString batch_size) "info" t2

/-- Method `finish_training_session` (lines 143-146). -/
def finish_training_session (d : PyDict) (t1 t2 : String) : Option PyDict := do
  let d ← update_training_status d "completed" [] t1
  add_log d "Training session completed!" "info" t2

/-- Read one series of the `metrics_history` sub-dict. -/
def mhSeries (d : PyDict) (series : String) : Option (List PyVal) :=
  match dGet d "metrics_history" with
  | some (PyVal.dict mh) =>
    match dGet mh series with
    | some (PyVal.list l) => some l
    | _ => Option.none
  | _ => Option.none

/-- One producer call after a session start: either a status update or
a log append. -/
inductive PCall : Type where
  | upd (status : String) (kwargs : PyDict) (now : String)
  | log (message level now : String)

/-- Execute one producer call against the state dict. -/
def runCall (d : PyDict) (c : PCall) : Option PyDict :=
  match c with
  | PCall.upd status kwargs now => update_training_status d status kwargs now
  | PCall.log message level now => add_log d message level now

/-- Execute a sequence of producer calls left to right, stopping at the
first raised exception. -/
def runCalls (d : PyDict) (cs : List PCall) : Option PyDict :=
  cs.foldlM runCall d

/-- The log entry produced by one `add_log` argument triple
`(message, level, now)`. -/
def entryOf (m : String × String × String) : PyVal :=
  logEntry m.2.2 m.2.1 m.1

/-- Execute a sequence of `add_log` calls, each given as a
`(message, level, now)` triple. -/
def runAddLogs (d : PyDict) (msgs : List (String × String × String)) : Option PyDict :=
  msgs.foldlM (fun d m => add_log d m.1 m.2.1 m.2.2) d

/-- The pure bounded-buffer step on the stored list. -/
def logStep (l : List PyVal) (e : PyVal) : List PyVal :=
  cap100 (l ++ [e])

/-- The epoch-bound invariant claimed by the spec: `current_epoch` and
`total_epochs` are non-negative integers with
`current_epoch ≤ total_epochs`. -/
def EpochInv (d : PyDict) : Prop :=
  ∃ e t : Int, dGet d "current_epoch" = some (PyVal.int e)
    ∧ dGet d "total_epochs" = some (PyVal.int t) ∧ 0 ≤ e ∧ e ≤ t

/-- A producer call that does not itself write the epoch fields. -/
def epochSafe (c : PCall) : Prop :=
  match c with
  | PCall.upd _ kwargs _ => ∀ kv ∈ kwargs, kv.1 ≠ "current_epoch" ∧ kv.1 ≠ "total_epochs"
  | PCall.log _ _ _ => True

/-! Basic dictionary lemmas. -/

theorem dGet_dSet (d : PyDict) (k k' : String) (v : PyVal) :
    dGet (dSet d k v) k' = if k = k' then some v else dGet d k' := by
  induction d with
  | nil => by_cases h : k = k' <;> simp [dGet, dSet, h]
  | cons kv rest ih =>
    obtain ⟨k'', v''⟩ := kv
    by_cases h : k'' = k
    · subst h
      by_cases h' : k'' = k' <;> simp [dGet, dSet, h']
    · by_cases h' : k'' = k'
      · subst h'
        have hkk : ¬ k = k'' := fun he => h he.symm
        simp [dGet, dSet, h, hkk]
      · simp [dGet, dSet, h, h', ih]

theorem dGet_dSet_same (d : PyDict) (k : String) (v : PyVal) :
    dGet (dSet d k v) k = some v := by
  simp [dGet_dSet]

theorem dGet_dSet_other (d : PyDict) (k k' : String) (v : PyVal) (h : k ≠ k') :
    dGet (dSet d k v) k' = dGet d k' := by
  simp [dGet_dSet, h]

theorem dHas_dSet (d : PyDict) (k k' : String) (v : PyVal) :
    dHas (dSet d k v) k' = (k = k' || dHas d k') := by
  by_cases h : k = k' <;> simp [dHas, dGet_dSet, h]

theorem dGet_mem (d : PyDict) (k : String) (v : PyVal) (h : dGet d k = some v) :
    (k, v) ∈ d := by
  induction d with
  | nil => exact Option.noConfusion h
  | cons kv rest ih =>
    obtain ⟨k', v'⟩ := kv
    by_cases hk : k' = k
    · subst hk
      simp [dGet] at h
      subst h
      exact List.mem_cons_self _ _
    · simp [dGet, hk] at h
      exact List.mem_cons_of_mem _ (ih h)

theorem dGet_none_of_keys (d : PyDict) (k : String)
    (h : ∀ kv ∈ d, kv.1 ≠ k) : dGet d k = Option.none := by
  induction d with
  | nil => rfl
  | cons kv rest ih =>
    have hk : kv.1 ≠ k := (h kv (List.mem_cons_self _ _))
    simp [dGet, hk]
    exact ih (fun kv' hm => h kv' (List.mem_cons_of_mem _ hm))

/-- Inversion of an Option bind against a successful result. -/
theorem bindInv {α β : Type} {x : Option α} {f : α → Option β} {b : β}
    (h : x >>= f = some b) : ∃ a, x = some a ∧ f a = some b := by
  cases x with
  | none => exact Option.noConfusion h
  | some a => exact ⟨a, rfl, h⟩

/-! Lemmas about the bounded-buffer step and `add_log`. -/

theorem cap100_length_le (l : List PyVal) (h : l.length ≤ 101) :
    (cap100 l).length ≤ 100 := by
  unfold cap100
  split
  · simp; omega
  · omega

theorem cap100_of_le (l : List PyVal) (h : l.length ≤ 100) : cap100 l = l := by
  unfold cap100
  rw [if_neg (by omega)]

theorem cap100_append_singleton (l : List PyVal) (e : PyVal) :
    ∃ l', cap100 (l ++ [e]) = l' ++ [e] := by
  unfold cap100
  split
  · cases l with
    | nil => simp_all
    | cons x xs => exact ⟨xs, by simp⟩
  · exact ⟨l, rfl⟩

theorem add_log_eq (d : PyDict) (msg lvl now : String) (l : List PyVal)
    (h : dGet d "logs" = some (PyVal.list l)) :
    add_log d msg lvl now
      = some (dSet d "logs" (PyVal.list (cap100 (l ++ [logEntry now lvl msg])))) := by
  unfold add_log
  rw [h]

theorem add_log_frame (d d' : PyDict) (msg lvl now : String)
    (h : add_log d msg lvl now = some d') :
    ∀ k, k ≠ "logs" → dGet d' k = dGet d k := by
  intro k hk
  unfold add_log at h
  split at h
  · cases h
    exact dGet_dSet_other _ _ _ _ (fun he => hk he.symm)
  · exact Option.noConfusion h

/-! Lemmas about the keyword loop. -/

theorem applyKwargs_nil (d : PyDict) : applyKwargs d [] = d := rfl

theorem applyKwargs_cons (d : PyDict) (kv : String × PyVal) (kws : PyDict) :
    applyKwargs d (kv :: kws)
      = applyKwargs (if dHas d kv.1 then dSet d kv.1 kv.2 else d) kws := rfl

theorem applyKwargs_no_keys (d : PyDict) (kwargs : PyDict)
    (h : ∀ kv ∈ kwargs, dHas d kv.1 = false) : applyKwargs d kwargs = d := by
  induction kwargs with
  | nil => rfl
  | cons kv kws ih =>
    rw [applyKwargs_cons, if_neg (by rw [h kv (List.mem_cons_self _ _)]; simp)]
    exact ih (fun kv' hm => h kv' (List.mem_cons_of_mem _ hm))

theorem dGet_applyKwargs_other (d : PyDict) (kwargs : PyDict) (k : String)
    (h : ∀ kv ∈ kwargs, kv.1 ≠ k) : dGet (applyKwargs d kwargs) k = dGet d k := by
  induction kwargs generalizing d with
  | nil => rfl
  | cons kv kws ih =>
    rw [applyKwargs_cons]
    rw [ih _ (fun kv' hm => h kv' (List.mem_cons_of_mem _ hm))]
    by_cases hb : dHas d kv.1 = true
    · rw [if_pos hb, dGet_dSet_other _ _ _ _ (h kv (List.mem_cons_self _ _))]
    · rw [if_neg hb]

/-! Frame and success lemmas for the metrics-history helpers. -/

theorem mhAppend_eq (d : PyDict) (mh : PyDict) (s : String) (l : List PyVal) (v : PyVal)
    (h1 : dGet d "metrics_history" = some (PyVal.dict mh))
    (h2 : dGet mh s = some (PyVal.list l)) :
    mhAppend d s v
      = some (dSet d "metrics_history" (PyVal.dict (dSet mh s (PyVal.list (l ++ [v]))))) := by
  simp [mhAppend, h1, h2]

theorem mhPopFront_eq (d : PyDict) (mh : PyDict) (s : String) (x : PyVal) (rest : List PyVal)
    (h1 : dGet d "metrics_history" = some (PyVal.dict mh))
    (h2 : dGet mh s = some (PyVal.list (x :: rest))) :
    mhPopFront d s
      = some (dSet d "metrics_history" (PyVal.dict (dSet mh s (PyVal.list rest)))) := by
  simp [mhPopFront, h1, h2]

theorem mhAppend_frame (d d' : PyDict) (s : String) (v : PyVal)
    (h : mhAppend d s v = some d') :
    ∀ k, k ≠ "metrics_history" → dGet d' k = dGet d k := by
  intro k hk
  unfold mhAppend at h
  split at h
  · split at h
    · cases h
      exact dGet_dSet_other _ _ _ _ (fun he => hk he.symm)
    · exact Option.noConfusion h
  · exact Option.noConfusion h

theorem mhPopFront_frame (d d' : PyDict) (s : String)
    (h : mhPopFront d s = some d') :
    ∀ k, k ≠ "metrics_history" → dGet d' k = dGet d k := by
  intro k hk
  unfold mhPopFront at h
  split at h
  · split at h
    · cases h
      exact dGet_dSet_other _ _ _ _ (fun he => hk he.symm)
    · exact Option.noConfusion h
  · exact Option.noConfusion h

/-! Lemmas about the two metric branches of `update_training_status`. -/

theorem lossBranch_skip (d : PyDict) (kwargs : PyDict) (now : String)
    (h : dGet kwargs "loss" = Option.none) : lossBranch d kwargs now = some d := by
  unfold lossBranch
  rw [h]

theorem lrBranch_skip (d : PyDict) (kwargs : PyDict)
    (h : dGet kwargs "learning_rate" = Option.none) : lrBranch d kwargs = some d := by
  unfold lrBranch
  rw [h]

theorem lrBranch_frame (d d' : PyDict) (kwargs : PyDict)
    (h : lrBranch d kwargs = some d') :
    ∀ k, k ≠ "metrics_history" → dGet d' k = dGet d k := by
  intro k hk
  unfold lrBranch at h
  split at h
  · cases h; rfl
  · exact mhAppend_frame _ _ _ _ h k hk

theorem lossBranch_frame (d d' : PyDict) (kwargs : PyDict) (now : String)
    (h : lossBranch d kwargs now = some d') :
    ∀ k, k ≠ "metrics_history" → dGet d' k = dGet d k := by
  intro k hk
  unfold lossBranch at h
  split at h
  · cases h; rfl
  · obtain ⟨d1, h1, h⟩ := bindInv h
    obtain ⟨d2, h2, h⟩ := bindInv h
    have e1 : dGet d1 k = dGet d k := mhAppend_frame _ _ _ _ h1 k hk
    have e2 : dGet d2 k = dGet d1 k := mhAppend_frame _ _ _ _ h2 k hk
    split at h
    · split at h
      · split at h
        · obtain ⟨d3, h3, h4⟩ := bindInv h
          rw [mhPopFront_frame _ _ _ h4 k hk, mhPopFront_frame _ _ _ h3 k hk, e2, e1]
        · cases h
          rw [e2, e1]
      · exact Option.noConfusion h
    · exact Option.noConfusion h

/-! Lemmas about `update_training_status` as a whole. -/

theorem update_eq_bind (d : PyDict) (status : String) (kwargs : PyDict) (now : String) :
    update_training_status d status kwargs now
      = (lossBranch (dSet (applyKwargs (dSet d "status" (PyVal.str status)) kwargs)
          "last_update" (PyVal.str now)) kwargs now) >>= (fun d => lrBranch d kwargs) := rfl

theorem update_preserves (d d' : PyDict) (status : String) (kwargs : PyDict) (now k : String)
    (hk1 : k ≠ "status") (hk2 : k ≠ "last_update") (hk3 : k ≠ "metrics_history")
    (hkw : ∀ kv ∈ kwargs, kv.1 ≠ k)
    (h : update_training_status d status kwargs now = some d') :
    dGet d' k = dGet d k := by
  rw [update_eq_bind] at h
  obtain ⟨d4, h4, h5⟩ := bindInv h
  rw [lrBranch_frame _ _ _ h5 k hk3, lossBranch_frame _ _ _ _ h4 k hk3,
      dGet_dSet_other _ _ _ _ (fun he => hk2 he.symm),
      dGet_applyKwargs_other _ _ _ hkw,
      dGet_dSet_other _ _ _ _ (fun he => hk1 he.symm)]

theorem update_sets_lastUpdate (d d' : PyDict) (status : String) (kwargs : PyDict) (now : String)
    (h : update_training_status d status kwargs now = some d') :
    dGet d' "last_update" = some (PyVal.str now) := by
  rw [update_eq_bind] at h
  obtain ⟨d4, h4, h5⟩ := bindInv h
  rw [lrBranch_frame _ _ _ h5 _ (by decide), lossBranch_frame _ _ _ _ h4 _ (by decide),
      dGet_dSet_same]

theorem update_nil_eq (d : PyDict) (status : String) (now : String) :
    update_training_status d status [] now
      = some (dSet (dSet d "status" (PyVal.str status)) "last_update" (PyVal.str now)) := rfl

/-! Closed form of `start_training_session`. -/

theorem start_eq (d : PyDict) (model : String) (te ds bs : Int) (st : Rat)
    (t1 t2 : String) (hbs : bs ≠ 0) :
    start_training_session d model te ds bs st t1 t2 = some
      (dSet (dSet (dSet (dSet (dSet (dSet (dSet (dSet (dSet (dSet (dSet (dSet (dSet d
        "status" (PyVal.str "starting"))
        "model_name" (PyVal.str model))
        "total_epochs" (PyVal.int te))
        "dataset_size" (PyVal.int ds))
        "batch_size" (PyVal.int bs))
        "current_epoch" (PyVal.int 0))
        "current_step" (PyVal.int 0))
        "total_steps" (PyVal.int (Int.fdiv ds bs * te)))
        "start_time" (PyVal.float st))
        "logs" (PyVal.list []))
        "metrics_history" emptyMetricsHistory)
        "logs" (PyVal.list [logEntry t1 "info" ("Starting training session for " ++ model)]))
        "logs" (PyVal.list
          [logEntry t1 "info" ("Starting training session for " ++ model),
           logEntry t2 "info" ("Total epochs: " ++ toString te ++ ", Dataset size: "
             ++ toString ds ++ ", Batch size: " ++ toString bs)])) := by
  unfold start_training_session
  rw [if_neg hbs]
  simp only []
  rw [add_log_eq _ _ _ _ [] (by rw [dGet_dSet_other _ _ _ _ (by decide), dGet_dSet_same])]
  rw [show ([] : List PyVal) ++ [logEntry t1 "info" ("Starting training session for " ++ model)]
        = [logEntry t1 "info" ("Starting training session for " ++ model)] from rfl]
  rw [cap100_of_le _ (by simp)]
  show add_log _ _ "info" t2 = _
  rw [add_log_eq _ _ _ _ [logEntry t1 "info" ("Starting training session for " ++ model)]
      (dGet_dSet_same _ _ _)]
  rw [cap100_of_le _ (by simp)]
  rfl

theorem start_spec (d : PyDict) (model : String) (te ds bs : Int) (st : Rat)
    (t1 t2 : String) (hbs : bs ≠ 0) :
    ∃ d', start_training_session d model te ds bs st t1 t2 = some d'
      ∧ dGet d' "logs" = some (PyVal.list
          [logEntry t1 "info" ("Starting training session for " ++ model),
           logEntry t2 "info" ("Total epochs: " ++ toString te ++ ", Dataset size: "
             ++ toString ds ++ ", Batch size: " ++ toString bs)])
      ∧ dGet d' "metrics_history" = some emptyMetricsHistory
      ∧ dGet d' "total_steps" = some (PyVal.int (Int.fdiv ds bs * te))
      ∧ dGet d' "current_epoch" = some (PyVal.int 0)
      ∧ dGet d' "total_epochs" = some (PyVal.int te)
      ∧ dGet d' "status" = some (PyVal.str "starting") := by
  refine ⟨_, start_eq d model te ds bs st t1 t2 hbs, ?_, ?_, ?_, ?_, ?_, ?_⟩
  · exact dGet_dSet_same _ _ _
  · simp [dGet_dSet]
  · simp [dGet_dSet]
  · simp [dGet_dSet]
  · simp [dGet_dSet]
  · simp [dGet_dSet]

/-! The pure bounded-buffer fold underlying repeated `add_log`. -/

theorem logStep_length_le (l : List PyVal) (e : PyVal) (h : l.length ≤ 100) :
    (logStep l e).length ≤ 100 :=
  cap100_length_le _ (by simp; omega)

theorem logStep_eq_drop (l : List PyVal) (e : PyVal) (h : l.length ≤ 100) :
    logStep l e = (l ++ [e]).drop (l.length + 1 - 100) := by
  unfold logStep cap100
  by_cases hl : l.length = 100
  · rw [if_pos (by simp [hl])]
    rw [show l.length + 1 - 100 = 1 by omega]
  · rw [if_neg (by simp; omega)]
    rw [show l.length + 1 - 100 = 0 by omega]
    rfl

theorem foldl_logStep (es : List PyVal) : ∀ l : List PyVal, l.length ≤ 100 →
    List.foldl logStep l es = (l ++ es).drop (l.length + es.length - 100) := by
  induction es with
  | nil =>
    intro l h
    rw [List.foldl_nil, List.append_nil,
      show l.length + List.length [] - 100 = 0 by simp only [List.length_nil, Nat.add_zero]; omega,
      List.drop_zero]
  | cons e es ih =>
    intro l h
    rw [List.foldl_cons, ih (logStep l e) (logStep_length_le l e h)]
    by_cases hl : l.length = 100
    · cases l with
      | nil => simp at hl
      | cons x xs =>
        have hxs : xs.length = 99 := by
          simp only [List.length_cons] at hl
          omega
        rw [show ((x :: xs) ++ e :: es).drop ((x :: xs).length + (e :: es).length - 100)
              = (xs ++ e :: es).drop es.length by
            rw [show (x :: xs).length + (e :: es).length - 100 = es.length + 1 by
              simp only [List.length_cons]; omega]
            rfl]
        rw [logStep_eq_drop _ _ h]
        rw [show (x :: xs).length + 1 - 100 = 1 by simp only [List.length_cons]; omega]
        rw [show ((x :: xs) ++ [e]).drop 1 = xs ++ [e] from rfl]
        rw [show (xs ++ [e]).length + es.length - 100 = es.length by
          simp only [List.length_append, List.length_cons, List.length_nil]; omega]
        rw [List.append_assoc]
        rfl
    · have hlt : l.length < 100 := lt_of_le_of_ne h hl
      rw [logStep_eq_drop _ _ h, show l.length + 1 - 100 = 0 by omega, List.drop_zero]
      rw [List.append_assoc]
      rw [show (l ++ [e]).length + es.length - 100 = l.length + (e :: es).length - 100 by
        simp only [List.length_append, List.length_cons, List.length_nil]; omega]
      rfl

theorem runAddLogs_cons (d : PyDict) (m : String × String × String)
    (ms : List (String × String × String)) :
    runAddLogs d (m :: ms) = (add_log d m.1 m.2.1 m.2.2) >>= fun d => runAddLogs d ms := rfl

theorem runAddLogs_spec (msgs : List (String × String × String)) :
    ∀ d l, dGet d "logs" = some (PyVal.list l) → l.length ≤ 100 →
    ∃ d', runAddLogs d msgs = some d'
      ∧ dGet d' "logs" = some (PyVal.list (List.foldl logStep l (msgs.map entryOf))) := by
  induction msgs with
  | nil =>
    intro d l h _
    exact ⟨d, rfl, by rw [h]; rfl⟩
  | cons m ms ih =>
    intro d l h hle
    have ha := add_log_eq d m.1 m.2.1 m.2.2 l h
    obtain ⟨d', hd', hl'⟩ := ih (dSet d "logs" (PyVal.list (logStep l (entryOf m))))
        (logStep l (entryOf m)) (dGet_dSet_same _ _ _) (logStep_length_le _ _ hle)
    refine ⟨d', ?_, ?_⟩
    · rw [runAddLogs_cons, ha]
      show runAddLogs _ ms = some d'
      exact hd'
    · rw [hl', List.map_cons, List.foldl_cons]

/-! The epoch-bound invariant along producer traces. -/

theorem epoch_step (d d' : PyDict) (c : PCall) (hI : EpochInv d) (hs : epochSafe c)
    (h : runCall d c = some d') : EpochInv d' := by
  obtain ⟨e, t, he, ht, h0, het⟩ := hI
  cases c with
  | log m lvl now =>
    unfold runCall at h
    exact ⟨e, t, by rw [add_log_frame _ _ _ _ _ h _ (by decide), he],
      by rw [add_log_frame _ _ _ _ _ h _ (by decide), ht], h0, het⟩
  | upd status kwargs now =>
    unfold runCall at h
    unfold epochSafe at hs
    exact ⟨e, t,
      by rw [update_preserves _ _ _ _ _ _ (by decide) (by decide) (by decide)
        (fun kv hm => (hs kv hm).1) h, he],
      by rw [update_preserves _ _ _ _ _ _ (by decide) (by decide) (by decide)
        (fun kv hm => (hs kv hm).2) h, ht],
      h0, het⟩

theorem epoch_trace (cs : List PCall) : ∀ d d', EpochInv d → (∀ c ∈ cs, epochSafe c) →
    runCalls d cs = some d' → EpochInv d' := by
  induction cs with
  | nil =>
    intro d d' hI _ h
    cases h
    exact hI
  | cons c cs ih =>
    intro d d' hI hsafe h
    rw [show runCalls d (c :: cs) = runCall d c >>= fun d => runCalls d cs from rfl] at h
    obtain ⟨d1, h1, h2⟩ := bindInv h
    exact ih d1 d' (epoch_step d d1 c hI (hsafe c (List.mem_cons_self _ _)) h1)
      (fun c' hm => hsafe c' (List.mem_cons_of_mem _ hm)) h2

/-! Claim theorems. -/

/-- Claim C4: a call of `update_training_status` whose keyword fields are all
unrecognized (none is a key of the snapshot dict) behaves exactly like a call
with no keyword fields: it succeeds, every snapshot field other than `status`
and `last_update` is unchanged, and `last_update` is set to the current
time. -/
theorem update_ignores_unknown_fields (d : PyDict) (status : String) (kwargs : PyDict)
    (now : String)
    (h0 : dHas d "status" = true) (h1 : dHas d "loss" = true)
    (h2 : dHas d "learning_rate" = true)
    (hb : ∀ kv ∈ kwargs, dHas d kv.1 = false) :
    update_training_status d status kwargs now = update_training_status d status [] now
    ∧ ∃ d', update_training_status d status kwargs now = some d'
      ∧ dGet d' "last_update" = some (PyVal.str now)
      ∧ ∀ k, k ≠ "status" → k ≠ "last_update" → dGet d' k = dGet d k := by
  have hak : applyKwargs (dSet d "status" (PyVal.str status)) kwargs
      = dSet d "status" (PyVal.str status) := by
    apply applyKwargs_no_keys
    intro kv hm
    rw [dHas_dSet]
    have hkv := hb kv hm
    rw [hkv]
    by_cases hs : "status" = kv.1
    · exfalso
      rw [← hs] at hkv
      rw [hkv] at h0
      exact Bool.noConfusion h0
    · simp [hs]
  have hloss : dGet kwargs "loss" = Option.none := by
    cases hc : dGet kwargs "loss" with
    | none => rfl
    | some v =>
      exfalso
      have hm := hb _ (dGet_mem kwargs "loss" v hc)
      rw [hm] at h1
      exact Bool.noConfusion h1
  have hlr : dGet kwargs "learning_rate" = Option.none := by
    cases hc : dGet kwargs "learning_rate" with
    | none => rfl
    | some v =>
      exfalso
      have hm := hb _ (dGet_mem kwargs "learning_rate" v hc)
      rw [hm] at h2
      exact Bool.noConfusion h2
  have heq : update_training_status d status kwargs now
      = some (dSet (dSet d "status" (PyVal.str status)) "last_update" (PyVal.str now)) := by
    rw [update_eq_bind, hak, lossBranch_skip _ _ _ hloss]
    show lrBranch _ kwargs = _
    rw [lrBranch_skip _ _ hlr]
  refine ⟨by rw [heq, update_nil_eq], _, heq, dGet_dSet_same _ _ _, ?_⟩
  intro k hk1 hk2
  rw [dGet_dSet_other _ _ _ _ (fun he => hk2 he.symm),
    dGet_dSet_other _ _ _ _ (fun he => hk1 he.symm)]

/-- Witness for C4 at the initial state with the keyword field
`bogusField=42`. -/
theorem update_ignores_unknown_fields_witness :
    dHas initTrainingData "status" = true
    ∧ dHas initTrainingData "bogusField" = false
    ∧ update_training_status initTrainingData "training" [("bogusField", PyVal.int 42)] "T"
        = update_training_status initTrainingData "training" [] "T"
    ∧ ∃ d', update_training_status initTrainingData "training"
          [("bogusField", PyVal.int 42)] "T" = some d'
        ∧ dGet d' "last_update" = some (PyVal.str "T") := by
  obtain ⟨heq, d', hd', hlu, _⟩ := update_ignores_unknown_fields initTrainingData "training"
    [("bogusField", PyVal.int 42)] "T" rfl rfl rfl
    (fun kv hm => by
      rw [List.mem_singleton] at hm
      rw [hm]
      rfl)
  exact ⟨rfl, rfl, heq, d', hd', hlu⟩

/-- Claim C5: `add_log` rewrites only the `logs` buffer (appending one entry,
with the 100-cap step) and leaves `last_update` and every other snapshot field
unchanged, while every successful `update_training_status` call sets
`last_update` to its call time. -/
theorem add_log_frame_vs_update (d : PyDict) (l : List PyVal) (msg lvl now : String)
    (h : dGet d "logs" = some (PyVal.list l)) :
    (∃ d', add_log d msg lvl now = some d'
       ∧ dGet d' "logs" = some (PyVal.list (cap100 (l ++ [logEntry now lvl msg])))
       ∧ ∀ k, k ≠ "logs" → dGet d' k = dGet d k)
    ∧ ∀ status kwargs now' d', update_training_status d status kwargs now' = some d' →
        dGet d' "last_update" = some (PyVal.str now') := by
  constructor
  · refine ⟨_, add_log_eq d msg lvl now l h, dGet_dSet_same _ _ _, ?_⟩
    intro k hk
    exact dGet_dSet_other _ _ _ _ (fun he => hk he.symm)
  · intro status kwargs now' d' h'
    exact update_sets_lastUpdate _ _ _ _ _ h'

/-- Witness for C5 at the initial state. -/
theorem add_log_frame_vs_update_witness :
    dGet initTrainingData "logs" = some (PyVal.list [])
    ∧ ∃ d', add_log initTrainingData "hello" "info" "T" = some d'
      ∧ dGet d' "logs" = some (PyVal.list (cap100 ([] ++ [logEntry "T" "info" "hello"])))
      ∧ dGet d' "last_update" = dGet initTrainingData "last_update" := by
  obtain ⟨⟨d', ha, hl, hf⟩, _⟩ :=
    add_log_frame_vs_update initTrainingData [] "hello" "info" "T" rfl
  exact ⟨rfl, d', ha, hl, hf _ (by decide)⟩

/-- Claim C6: starting from an empty log buffer, after more than 100 `add_log`
calls the buffer holds exactly 100 entries, namely the entries of the most
recent 100 calls in arrival order. -/
theorem log_buffer_bounded_fifo (d : PyDict) (msgs : List (String × String × String))
    (h0 : dGet d "logs" = some (PyVal.list [])) (hN : 100 < msgs.length) :
    ∃ d', runAddLogs d msgs = some d'
      ∧ dGet d' "logs" = some (PyVal.list ((msgs.map entryOf).drop (msgs.length - 100)))
      ∧ ((msgs.map entryOf).drop (msgs.length - 100)).length = 100 := by
  obtain ⟨d', h1, h2⟩ := runAddLogs_spec msgs d [] h0 (by simp)
  rw [foldl_logStep _ [] (by simp)] at h2
  simp only [List.nil_append, List.length_nil, Nat.zero_add, List.length_map] at h2
  refine ⟨d', h1, h2, ?_⟩
  rw [List.length_drop, List.length_map]
  omega

/-- Witness for C6: 101 log appends from the initial state. -/
theorem log_buffer_bounded_fifo_witness :
    dGet initTrainingData "logs" = some (PyVal.list [])
    ∧ 100 < ((List.range 101).map (fun i => (toString i, "info", "T"))).length
    ∧ ∃ d', runAddLogs initTrainingData
          ((List.range 101).map (fun i => (toString i, "info", "T"))) = some d'
        ∧ dGet d' "logs" = some (PyVal.list
            ((((List.range 101).map (fun i => (toString i, "info", "T"))).map entryOf).drop
              (((List.range 101).map (fun i => (toString i, "info", "T"))).length - 100)))
        ∧ ((((List.range 101).map (fun i => (toString i, "info", "T"))).map entryOf).drop
              (((List.range 101).map (fun i => (toString i, "info", "T"))).length - 100)).length
            = 100 :=
  ⟨rfl, by simp, log_buffer_bounded_fifo initTrainingData _ rfl (by simp)⟩

theorem finish_eq_bind (d : PyDict) (t1 t2 : String) :
    finish_training_session d t1 t2
      = (update_training_status d "completed" [] t1).bind
          (fun d => add_log d "Training session completed!" "info" t2) := rfl

/-- Claim C7: `finish_training_session` is exactly `update_training_status`
with status `completed` followed by `add_log` of the completion message; in
particular it succeeds on a well-formed store, leaves the status `completed`,
and the last log entry carries the completion message. -/
theorem finish_refines_update_then_log (d : PyDict) (l : List PyVal) (t1 t2 : String)
    (h : dGet d "logs" = some (PyVal.list l)) :
    finish_training_session d t1 t2
      = (update_training_status d "completed" [] t1).bind
          (fun d => add_log d "Training session completed!" "info" t2)
    ∧ ∃ d', finish_training_session d t1 t2 = some d'
        ∧ dGet d' "status" = some (PyVal.str "completed")
        ∧ ∃ l', dGet d' "logs"
            = some (PyVal.list (l' ++ [logEntry t2 "info" "Training session completed!"])) := by
  constructor
  · rfl
  · have hl3 : dGet (dSet (dSet d "status" (PyVal.str "completed"))
        "last_update" (PyVal.str t1)) "logs" = some (PyVal.list l) := by
      rw [dGet_dSet_other _ _ _ _ (by decide), dGet_dSet_other _ _ _ _ (by decide), h]
    have hfin : finish_training_session d t1 t2
        = some (dSet (dSet (dSet d "status" (PyVal.str "completed"))
            "last_update" (PyVal.str t1)) "logs"
            (PyVal.list (cap100 (l ++ [logEntry t2 "info" "Training session completed!"])))) := by
      rw [finish_eq_bind, update_nil_eq]
      exact add_log_eq _ _ _ _ l hl3
    obtain ⟨l', hl'⟩ := cap100_append_singleton l (logEntry t2 "info" "Training session completed!")
    refine ⟨_, hfin, ?_, ⟨l', ?_⟩⟩
    · rw [dGet_dSet_other _ _ _ _ (by decide), dGet_dSet_other _ _ _ _ (by decide),
        dGet_dSet_same]
    · rw [dGet_dSet_same, hl']

/-- Witness for C7 at the initial state. -/
theorem finish_refines_update_then_log_witness :
    dGet initTrainingData "logs" = some (PyVal.list [])
    ∧ finish_training_session initTrainingData "t1" "t2"
        = (update_training_status initTrainingData "completed" [] "t1").bind
            (fun d => add_log d "Training session completed!" "info" "t2")
    ∧ ∃ d', finish_training_session initTrainingData "t1" "t2" = some d'
        ∧ dGet d' "status" = some (PyVal.str "completed") := by
  obtain ⟨h1, d', h2, h3, _⟩ := finish_refines_update_then_log initTrainingData [] "t1" "t2" rfl
  exact ⟨rfl, h1, d', h2, h3⟩

/-- Claim C9: the keyword loop of `update_training_status` recognizes any
existing dict key — including the non-scalar `logs` key — so a `logs=[]`
keyword overwrites the whole log buffer rather than being ignored: after one
`add_log` the buffer holds one entry, and a subsequent update carrying
`logs=[]` leaves it empty. -/
theorem update_recognizes_any_dict_key :
    (∀ d : PyDict, ∀ k : String, ∀ v : PyVal, dHas d k = true →
        applyKwargs d [(k, v)] = dSet d k v)
    ∧ ∃ d1 d2, add_log initTrainingData "hello" "info" "t0" = some d1
      ∧ dGet d1 "logs" = some (PyVal.list [logEntry "t0" "info" "hello"])
      ∧ update_training_status d1 "training" [("logs", PyVal.list [])] "t1" = some d2
      ∧ dGet d2 "logs" = some (PyVal.list []) := by
  constructor
  · intro d k v hk
    rw [applyKwargs_cons, if_pos hk, applyKwargs_nil]
  · exact ⟨_, _, rfl, rfl, rfl, rfl⟩

/-- Witness for C9: the `logs` key of the initial state is recognized by the
keyword loop. -/
theorem update_recognizes_any_dict_key_witness :
    dHas initTrainingData "logs" = true
    ∧ applyKwargs initTrainingData [("logs", PyVal.list [])]
        = dSet initTrainingData "logs" (PyVal.list []) :=
  ⟨rfl, update_recognizes_any_dict_key.1 initTrainingData "logs" (PyVal.list []) rfl⟩

/-- Claim C10: immediately after `start_training_session` the log buffer is
not empty: it holds exactly the two session-start entries, the first naming
the model and the second reporting the epochs, dataset size and batch size,
both appended after the histories were cleared. -/
theorem start_appends_two_logs (d : PyDict) (model : String) (te ds bs : Int)
    (st : Rat) (t1 t2 : String) (hbs : bs ≠ 0) :
    ∃ d', start_training_session d model te ds bs st t1 t2 = some d'
      ∧ dGet d' "logs" = some (PyVal.list
          [logEntry t1 "info" ("Starting training session for " ++ model),
           logEntry t2 "info" ("Total epochs: " ++ toString te ++ ", Dataset size: "
             ++ toString ds ++ ", Batch size: " ++ toString bs)])
      ∧ dGet d' "logs" ≠ some (PyVal.list []) := by
  obtain ⟨d', h1, h2, _⟩ := start_spec d model te ds bs st t1 t2 hbs
  refine ⟨d', h1, h2, ?_⟩
  rw [h2]
  simp

/-- Witness for C10 at the initial state with a 3-epoch session. -/
theorem start_appends_two_logs_witness :
    (16 : Int) ≠ 0
    ∧ ∃ d', start_training_session initTrainingData "m" 3 500 16 0 "t1" "t2" = some d'
      ∧ dGet d' "logs" = some (PyVal.list
          [logEntry "t1" "info" "Starting training session for m",
           logEntry "t2" "info" "Total epochs: 3, Dataset size: 500, Batch size: 16"]) := by
  refine ⟨by decide, ?_⟩
  obtain ⟨d', h1, h2, _⟩ :=
    start_appends_two_logs initTrainingData "m" 3 500 16 0 "t1" "t2" (by decide)
  refine ⟨d', h1, ?_⟩
  rw [h2]
  rfl

set_option maxRecDepth 10000 in
/-- Claim C1: contrary to the uniform 100-cap, the `learning_rate` series is
NOT capped.  From a fresh state, 101 updates each carrying a `learning_rate`
field leave a series of 101 points, while 101 updates each carrying a `loss`
field leave the loss series at the 100-point cap. -/
theorem learning_rate_history_uncapped :
    (do
      let d ← runCalls initTrainingData
        ((List.range 101).map (fun i => PCall.upd "training"
          [("learning_rate", PyVal.int i)] "T"))
      let l ← mhSeries d "learning_rate"
      pure l.length) = some 101
    ∧ (do
      let d ← runCalls initTrainingData
        ((List.range 101).map (fun i => PCall.upd "training"
          [("loss", PyVal.int i)] "T"))
      let l ← mhSeries d "loss"
      pure l.length) = some 100 := ⟨rfl, rfl⟩

/-- Counterexample to claim C2: `start_training_session` does not leave the
log buffer empty — from the initial state it returns a state whose log buffer
holds the two session-start entries. -/
theorem start_session_logs_not_empty :
    ∃ d', start_training_session initTrainingData "m" 3 500 16 0 "t1" "t2" = some d'
      ∧ dGet d' "logs" = some (PyVal.list
          [logEntry "t1" "info" "Starting training session for m",
           logEntry "t2" "info" "Total epochs: 3, Dataset size: 500, Batch size: 16"])
      ∧ dGet d' "logs" ≠ some (PyVal.list []) := by
  obtain ⟨d', h1, h2, _⟩ := start_spec initTrainingData "m" 3 500 16 0 "t1" "t2" (by decide)
  refine ⟨d', h1, by rw [h2]; rfl, by rw [h2]; simp⟩

/-- Claim C2 as amended: `start_training_session` discards all prior logs and
metric history (the metrics history is left empty, the log buffer holds
exactly the two fresh session-start entries and nothing of the prior state),
and sets `total_steps = floor(datasetSize/batchSize) * totalEpochs`. -/
theorem start_session_reset (d : PyDict) (model : String) (te ds bs : Int)
    (st : Rat) (t1 t2 : String) (hbs : bs ≠ 0) :
    ∃ d', start_training_session d model te ds bs st t1 t2 = some d'
      ∧ dGet d' "metrics_history" = some emptyMetricsHistory
      ∧ dGet d' "total_steps" = some (PyVal.int (Int.fdiv ds bs * te))
      ∧ dGet d' "logs" = some (PyVal.list
          [logEntry t1 "info" ("Starting training session for " ++ model),
           logEntry t2 "info" ("Total epochs: " ++ toString te ++ ", Dataset size: "
             ++ toString ds ++ ", Batch size: " ++ toString bs)]) := by
  obtain ⟨d', h1, hlogs, hmh, hts, _, _, _⟩ := start_spec d model te ds bs st t1 t2 hbs
  exact ⟨d', h1, hmh, hts, hlogs⟩

/-- Witness for the amended C2 at the spec example `datasetSize=500,
batchSize=16, totalEpochs=3`, which yields `total_steps = 93`. -/
theorem start_session_reset_witness :
    (16 : Int) ≠ 0 ∧ Int.fdiv 500 16 * 3 = 93
    ∧ ∃ d', start_training_session initTrainingData "m" 3 500 16 0 "t1" "t2" = some d'
      ∧ dGet d' "metrics_history" = some emptyMetricsHistory
      ∧ dGet d' "total_steps" = some (PyVal.int 93) := by
  refine ⟨by decide, by decide, ?_⟩
  obtain ⟨d', h1, hmh, hts, _⟩ :=
    start_session_reset initTrainingData "m" 3 500 16 0 "t1" "t2" (by decide)
  refine ⟨d', h1, hmh, ?_⟩
  rw [hts]
  rw [show Int.fdiv 500 16 * 3 = 93 by decide]

theorem bind_some {α β : Type} (a : α) (f : α → Option β) : (some a >>= f) = f a := rfl

theorem lossBranch_eq (d mh : PyDict) (kwargs : PyDict) (now : String) (v : PyVal)
    (ll ts : List PyVal)
    (hk : dGet kwargs "loss" = some v)
    (hmh : dGet d "metrics_history" = some (PyVal.dict mh))
    (hll : dGet mh "loss" = some (PyVal.list ll))
    (hts : dGet mh "timestamps" = some (PyVal.list ts)) :
    ∃ d' mh', lossBranch d kwargs now = some d'
      ∧ dGet d' "metrics_history" = some (PyVal.dict mh')
      ∧ dGet mh' "loss" = some (PyVal.list (cap100 (ll ++ [v])))
      ∧ ∀ k, k ≠ "metrics_history" → dGet d' k = dGet d k := by
  have h1 := mhAppend_eq d mh "loss" ll v hmh hll
  set mh1 := dSet mh "loss" (PyVal.list (ll ++ [v])) with hmh1def
  set d4 := dSet d "metrics_history" (PyVal.dict mh1) with hd4def
  have hmh4 : dGet d4 "metrics_history" = some (PyVal.dict mh1) := by
    rw [hd4def]
    exact dGet_dSet_same _ _ _
  have hts1 : dGet mh1 "timestamps" = some (PyVal.list ts) := by
    rw [hmh1def, dGet_dSet_other _ _ _ _ (by decide), hts]
  have h2 := mhAppend_eq d4 mh1 "timestamps" ts (PyVal.str now) hmh4 hts1
  set mh2 := dSet mh1 "timestamps" (PyVal.list (ts ++ [PyVal.str now])) with hmh2def
  set d5 := dSet d4 "metrics_history" (PyVal.dict mh2) with hd5def
  have hmh5 : dGet d5 "metrics_history" = some (PyVal.dict mh2) := by
    rw [hd5def]
    exact dGet_dSet_same _ _ _
  have hll2 : dGet mh2 "loss" = some (PyVal.list (ll ++ [v])) := by
    rw [hmh2def, dGet_dSet_other _ _ _ _ (by decide), hmh1def, dGet_dSet_same]
  have hframe45 : ∀ k, k ≠ "metrics_history" → dGet d5 k = dGet d k := by
    intro k hk'
    rw [hd5def, dGet_dSet_other _ _ _ _ (fun he => hk' he.symm), hd4def,
      dGet_dSet_other _ _ _ _ (fun he => hk' he.symm)]
  by_cases hlen : (ll ++ [v]).length > 100
  · obtain ⟨x, xs, hx⟩ : ∃ x xs, ll ++ [v] = x :: xs := by
      cases ll with
      | nil => exact ⟨v, [], rfl⟩
      | cons a as => exact ⟨a, as ++ [v], rfl⟩
    have hll2' : dGet mh2 "loss" = some (PyVal.list (x :: xs)) := by rw [hll2, hx]
    have hp1 := mhPopFront_eq d5 mh2 "loss" x xs hmh5 hll2'
    set mh3 := dSet mh2 "loss" (PyVal.list xs) with hmh3def
    set d6 := dSet d5 "metrics_history" (PyVal.dict mh3) with hd6def
    have hmh6 : dGet d6 "metrics_history" = some (PyVal.dict mh3) := by
      rw [hd6def]
      exact dGet_dSet_same _ _ _
    obtain ⟨y, ys, hy⟩ : ∃ y ys, ts ++ [PyVal.str now] = y :: ys := by
      cases ts with
      | nil => exact ⟨PyVal.str now, [], rfl⟩
      | cons a as => exact ⟨a, as ++ [PyVal.str now], rfl⟩
    have hts3 : dGet mh3 "timestamps" = some (PyVal.list (y :: ys)) := by
      rw [hmh3def, dGet_dSet_other _ _ _ _ (by decide), hmh2def, dGet_dSet_same, hy]
    have hp2 := mhPopFront_eq d6 mh3 "timestamps" y ys hmh6 hts3
    set mh4 := dSet mh3 "timestamps" (PyVal.list ys) with hmh4def
    set d7 := dSet d6 "metrics_history" (PyVal.dict mh4) with hd7def
    refine ⟨d7, mh4, ?_, ?_, ?_, ?_⟩
    · unfold lossBranch
      simp only [hk, h1, bind_some, h2, hmh5, hll2]
      rw [if_pos hlen]
      simp only [hp1, bind_some, hp2]
    · rw [hd7def]
      exact dGet_dSet_same _ _ _
    · rw [hmh4def, dGet_dSet_other _ _ _ _ (by decide), hmh3def, dGet_dSet_same]
      unfold cap100
      rw [if_pos hlen, hx]
      rfl
    · intro k hk'
      rw [hd7def, dGet_dSet_other _ _ _ _ (fun he => hk' he.symm), hd6def,
        dGet_dSet_other _ _ _ _ (fun he => hk' he.symm)]
      exact hframe45 k hk'
  · refine ⟨d5, mh2, ?_, hmh5, ?_, hframe45⟩
    · unfold lossBranch
      simp only [hk, h1, bind_some, h2, hmh5, hll2]
      rw [if_neg hlen]
    · rw [hll2]
      unfold cap100
      rw [if_neg hlen]

/-- Counterexample to claim C3: a wrongly-typed `loss` field (a string) is not
rejected with a ValidationError — `update_training_status` succeeds (returns a
state rather than raising), stores the string in the `loss` snapshot field,
and appends it to the loss history, so the store is mutated. -/
theorem update_accepts_wrong_type :
    ∃ d', update_training_status initTrainingData "training"
        [("loss", PyVal.str "not a number")] "T" = some d'
      ∧ dGet d' "loss" = some (PyVal.str "not a number")
      ∧ mhSeries d' "loss" = some [PyVal.str "not a number"]
      ∧ dGet initTrainingData "loss" = some (PyVal.float 0)
      ∧ (some (PyVal.str "not a number") : Option PyVal) ≠ some (PyVal.float 0) :=
  ⟨_, rfl, rfl, rfl, rfl, by simp⟩

/-- Claim C3 as amended: the state-store mutations perform no type
validation — for ANY supplied value of any type, `update_training_status`
carrying a `loss` field succeeds on a well-formed store, stores the value
verbatim in the `loss` snapshot field, and appends it to the loss history
(with the 100-cap step); no call fails with a ValidationError. -/
theorem update_no_validation (d mh : PyDict) (status now : String) (v : PyVal)
    (ll ts : List PyVal)
    (hloss : dHas d "loss" = true)
    (hmh : dGet d "metrics_history" = some (PyVal.dict mh))
    (hll : dGet mh "loss" = some (PyVal.list ll))
    (hts : dGet mh "timestamps" = some (PyVal.list ts)) :
    ∃ d', update_training_status d status [("loss", v)] now = some d'
      ∧ dGet d' "loss" = some v
      ∧ mhSeries d' "loss" = some (cap100 (ll ++ [v])) := by
  have hc : dHas (dSet d "status" (PyVal.str status)) "loss" = true := by
    rw [dHas_dSet, hloss]
    rfl
  have hak : applyKwargs (dSet d "status" (PyVal.str status)) [("loss", v)]
      = dSet (dSet d "status" (PyVal.str status)) "loss" v := by
    simp [applyKwargs, hc]
  have hmh3 : dGet (dSet (dSet (dSet d "status" (PyVal.str status)) "loss" v)
      "last_update" (PyVal.str now)) "metrics_history" = some (PyVal.dict mh) := by
    rw [dGet_dSet_other _ _ _ _ (by decide), dGet_dSet_other _ _ _ _ (by decide),
      dGet_dSet_other _ _ _ _ (by decide), hmh]
  obtain ⟨d', mh', hlb, hmh', hll', hframe⟩ :=
    lossBranch_eq (dSet (dSet (dSet d "status" (PyVal.str status)) "loss" v)
      "last_update" (PyVal.str now)) mh [("loss", v)] now v ll ts rfl hmh3 hll hts
  refine ⟨d', ?_, ?_, ?_⟩
  · rw [update_eq_bind, hak, hlb, bind_some]
    exact lrBranch_skip _ _ rfl
  · rw [hframe _ (by decide), dGet_dSet_other _ _ _ _ (by decide), dGet_dSet_same]
  · simp only [mhSeries, hmh', hll']

/-- Witness for the amended C3 at the initial state with a string supplied as
the loss. -/
theorem update_no_validation_witness :
    dHas initTrainingData "loss" = true
    ∧ ∃ d', update_training_status initTrainingData "training"
          [("loss", PyVal.str "oops")] "T" = some d'
        ∧ dGet d' "loss" = some (PyVal.str "oops")
        ∧ mhSeries d' "loss" = some (cap100 ([] ++ [PyVal.str "oops"])) :=
  ⟨rfl, update_no_validation initTrainingData
    [("loss", PyVal.list []), ("learning_rate", PyVal.list []), ("timestamps", PyVal.list [])]
    "training" "T" (PyVal.str "oops") [] [] rfl rfl rfl rfl⟩

set_option maxRecDepth 10000 in
/-- Counterexample to claim C8: the epoch bound is not enforced — after a
session start with 3 total epochs, an update carrying `current_epoch=5` is
accepted and leaves `current_epoch = 5 > 3 = total_epochs`. -/
theorem epoch_bound_not_enforced :
    (do
      let d ← start_training_session initTrainingData "m" 3 500 16 0 "t1" "t2"
      let d ← update_training_status d "training" [("current_epoch", PyVal.int 5)] "T"
      pure (dGet d "current_epoch", dGet d "total_epochs"))
      = some (some (PyVal.int 5), some (PyVal.int 3))
    ∧ ¬ ((5 : Int) ≤ 3) := ⟨rfl, by decide⟩

/-- Claim C8 as amended: the code itself does not enforce the epoch bound (an
update may store any value in `current_epoch` or `total_epochs`); the
invariant `0 ≤ current_epoch ≤ total_epochs` holds after a session start with
a non-negative epoch count and is preserved by every subsequent producer call
that does not itself supply the `current_epoch` or `total_epochs` fields, so
it is the callers of those fields who are responsible for maintaining it. -/
theorem epoch_invariant_of_safe_calls (d d' d'' : PyDict) (model : String)
    (te ds bs : Int) (st : Rat) (t1 t2 : String) (cs : List PCall)
    (hte : 0 ≤ te) (hbs : bs ≠ 0) (hsafe : ∀ c ∈ cs, epochSafe c)
    (hstart : start_training_session d model te ds bs st t1 t2 = some d')
    (hrun : runCalls d' cs = some d'') : EpochInv d'' := by
  obtain ⟨d0, h1, _, _, _, hce, hte', _⟩ := start_spec d model te ds bs st t1 t2 hbs
  rw [hstart] at h1
  cases h1
  exact epoch_trace cs d' d'' ⟨0, te, hce, hte', le_refl 0, hte⟩ hsafe hrun

/-- Witness for the amended C8: a session start followed by a step update that
does not touch the epoch fields. -/
theorem epoch_invariant_of_safe_calls_witness :
    (0 : Int) ≤ 3 ∧ (16 : Int) ≠ 0
    ∧ ∃ d' d'', start_training_session initTrainingData "m" 3 500 16 0 "t1" "t2" = some d'
      ∧ runCalls d' [PCall.upd "training" [("current_step", PyVal.int 1)] "T"] = some d''
      ∧ EpochInv d'' := by
  refine ⟨by decide, by decide, ?_⟩
  have hs : (start_training_session initTrainingData "m" 3 500 16 0 "t1" "t2").isSome
      = true := rfl
  obtain ⟨d', hd'⟩ := Option.isSome_iff_exists.mp hs
  have hu : update_training_status d' "training" [("current_step", PyVal.int 1)] "T"
      = some (dSet (applyKwargs (dSet d' "status" (PyVal.str "training"))
          [("current_step", PyVal.int 1)]) "last_update" (PyVal.str "T")) := by
    rw [update_eq_bind,
      lossBranch_skip _ [("current_step", PyVal.int 1)] "T" rfl, bind_some]
    exact lrBranch_skip _ [("current_step", PyVal.int 1)] rfl
  have hrun : runCalls d' [PCall.upd "training" [("current_step", PyVal.int 1)] "T"]
      = some (dSet (applyKwargs (dSet d' "status" (PyVal.str "training"))
          [("current_step", PyVal.int 1)]) "last_update" (PyVal.str "T")) := by
    rw [show runCalls d' [PCall.upd "training" [("current_step", PyVal.int 1)] "T"]
        = runCall d' (PCall.upd "training" [("current_step", PyVal.int 1)] "T")
            >>= (fun d => runCalls d []) from rfl]
    rw [show runCall d' (PCall.upd "training" [("current_step", PyVal.int 1)] "T")
        = update_training_status d' "training" [("current_step", PyVal.int 1)] "T" from rfl]
    rw [hu, bind_some]
    rfl
  refine ⟨d', _, hd', hrun, ?_⟩
  refine epoch_invariant_of_safe_calls initTrainingData d' _ "m" 3 500 16 0 "t1" "t2"
    [PCall.upd "training" [("current_step", PyVal.int 1)] "T"]
    (by decide) (by decide) ?_ hd' hrun
  intro c hm
  rw [List.mem_singleton] at hm
  subst hm
  unfold epochSafe
  intro kv hkv
  rw [List.mem_singleton] at hkv
  subst hkv
  exact ⟨by decide, by decide⟩
